import Mathlib

/-!
Shallow embedding of the bitcoin-bot portfolio aggregation core
(crypto-dashboard-web): the multi-platform aggregator
(`fetchAllPlatformData` / `fetchPlatformData`), the CoinGecko price
cache (`fetchPrices`), the portfolio valuation (`usePortfolioStore.setHoldings`),
the Crypto.com HMAC-SHA256 request signing (`hmacSign` / `signedRequest`),
the Blur/Reservoir two-phase NFT holdings (`fetchNftHoldings` /
`enrichBlurHoldingsWithEthPrice`), the Crypto.com account summary
(`fetchAccountSummary`) and the Hyperliquid holdings merge
(`fetchHyperliquidHoldings`).

JavaScript numbers are modelled as exact rationals where the code only
performs arithmetic on finite values with nonzero divisors; where the
behaviour at division by zero matters (the valuation), a dedicated
`JSNum` type with signed infinities and NaN mirrors IEEE-754 special
values under the ECMAScript operator semantics.  Network calls are
modelled as explicit `Except String` outcome parameters: `Except.error s`
is a rejected promise whose reason carries message `s`.
-/

namespace BitcoinBot

/-- Platform union type, from `src/types.ts` of crypto-dashboard-web
(the variant that includes `"bitcoin"`, used by the aggregator). -/
inductive Platform where
  | cryptoCom
  | hyperliquid
  | blur
  | ethereum
  | solana
  | bitcoin
  | other
deriving DecidableEq, Repr

/-- TradeType union, from `src/types.ts`. -/
inductive TradeType where
  | buy
  | sell
  | swap
  | transfer
  | liquidation
  | airdrop
  | other
deriving DecidableEq, Repr

/-- Source tag of a trade record, from `src/types.ts`. -/
inductive TradeSource where
  | api
  | manual
deriving DecidableEq, Repr

/-- PortfolioHolding, from `src/types.ts`.  The extra `ethValue` field
models the untyped `_ethValue` annotation the Blur adapter attaches
(absent, i.e. `none`, on every other adapter output). -/
structure PortfolioHolding where
  asset : String
  platform : Platform
  amount : ℚ
  currentPriceUsd : ℚ
  currentValueUsd : ℚ
  change24hPercent : ℚ
  unrealizedPnlUsd : Option ℚ := none
  ethValue : Option ℚ := none
deriving DecidableEq, Repr

/-- TradeRecord, from `src/types.ts` (the untyped `raw` debugging payload
is not modelled). -/
structure TradeRecord where
  id : String
  date : String
  platform : Platform
  ttype : TradeType
  asset : String
  amount : ℚ
  priceUsd : ℚ
  totalValueUsd : ℚ
  feesUsd : ℚ
  costBasisUsd : Option ℚ := none
  gainLossUsd : Option ℚ := none
  txHash : Option String := none
  source : TradeSource
  notes : Option String := none
deriving DecidableEq, Repr

/-!
JavaScript number semantics with IEEE-754 special values, for the code
paths where a division by zero can occur.  `JSNum.num q` is a finite
value (negative zero is not distinguished: every zero produced by the
modelled code is `+0`), `inf true` is `+Infinity`, `inf false` is
`-Infinity`.
-/

/-- A JavaScript number: NaN, a signed infinity, or a finite rational. -/
inductive JSNum where
  | nan
  | inf (pos : Bool)
  | num (q : ℚ)
deriving DecidableEq, Repr

/-- ECMAScript addition on `JSNum`. -/
def JSNum.add : JSNum → JSNum → JSNum
  | .nan, _ => .nan
  | _, .nan => .nan
  | .inf p, .inf q => if p = q then .inf p else .nan
  | .inf p, .num _ => .inf p
  | .num _, .inf q => .inf q
  | .num a, .num b => .num (a + b)

/-- ECMAScript negation on `JSNum`. -/
def JSNum.neg : JSNum → JSNum
  | .nan => .nan
  | .inf p => .inf (!p)
  | .num a => .num (-a)

/-- ECMAScript subtraction on `JSNum`. -/
def JSNum.sub (a b : JSNum) : JSNum := a.add b.neg

/-- ECMAScript multiplication on `JSNum`. -/
def JSNum.mul : JSNum → JSNum → JSNum
  | .nan, _ => .nan
  | _, .nan => .nan
  | .inf p, .inf q => .inf (p = q)
  | .inf p, .num a => if a = 0 then .nan else .inf (p = decide (0 < a))
  | .num a, .inf q => if a = 0 then .nan else .inf (q = decide (0 < a))
  | .num a, .num b => .num (a * b)

/-- ECMAScript division on `JSNum` (dividing a nonzero finite value by
`+0` yields a signed infinity; `0 / 0` yields NaN). -/
def JSNum.div : JSNum → JSNum → JSNum
  | .nan, _ => .nan
  | _, .nan => .nan
  | .inf _, .inf _ => .nan
  | .inf p, .num a => if a = 0 then .inf p else .inf (p = decide (0 < a))
  | .num _, .inf _ => .num 0
  | .num a, .num b =>
    if b = 0 then (if a = 0 then .nan else .inf (decide (0 < a)))
    else .num (a / b)

/-- ECMAScript strict greater-than on `JSNum` (false whenever either
operand is NaN). -/
def JSNum.gtb : JSNum → JSNum → Bool
  | .nan, _ => false
  | _, .nan => false
  | .inf p, .inf q => p && !q
  | .inf p, .num _ => p
  | .num _, .inf q => !q
  | .num a, .num b => decide (b < a)

/-- Whether a `JSNum` is a finite value (neither NaN nor an infinity). -/
def JSNum.isFinite : JSNum → Bool
  | .num _ => true
  | _ => false

/-!
Portfolio valuation, from `usePortfolioStore.setHoldings` in
`crypto-dashboard-web/src/stores` (the store file bundled next to
`services/bitcoin.ts`):

```
const totalValueUsd = holdings.reduce((sum, h) => sum + h.currentValueUsd, 0);
const prevTotal = holdings.reduce(
  (sum, h) => sum + h.currentValueUsd / (1 + h.change24hPercent / 100), 0);
const change24hUsd = totalValueUsd - prevTotal;
const change24hPercent = prevTotal > 0 ? (change24hUsd / prevTotal) * 100 : 0;
```

The per-holding divisor `1 + h.change24hPercent / 100` only involves
finite operands and the nonzero constant divisor `100`, so it is
computed in `ℚ`; the outer division is performed in `JSNum` because the
divisor can be zero.
-/

/-- Result triple of the valuation part of `setHoldings`. -/
structure ValuationResult where
  totalValueUsd : JSNum
  change24hUsd : JSNum
  change24hPercent : JSNum
deriving DecidableEq, Repr

/-- Prior-value divisor of one holding, `1 + h.change24hPercent / 100`. -/
def priorDivisor (h : PortfolioHolding) : ℚ := 1 + h.change24hPercent / 100

/-- The `totalValueUsd` reduce of `setHoldings`:
`holdings.reduce((sum, h) => sum + h.currentValueUsd, 0)`. -/
def totalValueJS (holdings : List PortfolioHolding) : JSNum :=
  holdings.foldl (fun sum h => sum.add (.num h.currentValueUsd)) (.num 0)

/-- The `prevTotal` reduce of `setHoldings`:
`holdings.reduce((sum, h) => sum + h.currentValueUsd / (1 + h.change24hPercent / 100), 0)`. -/
def prevTotalJS (holdings : List PortfolioHolding) : JSNum :=
  holdings.foldl
    (fun sum h => sum.add ((JSNum.num h.currentValueUsd).div (.num (priorDivisor h))))
    (.num 0)

/-- Valuation computed by `setHoldings` (the derived fields of the store
update; the holdings list itself is stored unchanged). -/
def setHoldingsValuation (holdings : List PortfolioHolding) : ValuationResult :=
  let totalValueUsd := totalValueJS holdings
  let prevTotal := prevTotalJS holdings
  let change24hUsd := totalValueUsd.sub prevTotal
  let change24hPercent :=
    if prevTotal.gtb (.num 0) then (change24hUsd.div prevTotal).mul (.num 100)
    else .num 0
  ⟨totalValueUsd, change24hUsd, change24hPercent⟩

/-- Exact total current value of a holdings list. -/
def totalOf (hs : List PortfolioHolding) : ℚ :=
  (hs.map (fun h => h.currentValueUsd)).sum

/-- Exact inferred prior-period total of a holdings list. -/
def priorOf (hs : List PortfolioHolding) : ℚ :=
  (hs.map (fun h => h.currentValueUsd / priorDivisor h)).sum

/-- Change percentage as the claim words it: the ratio formula, with `0`
exactly when the denominator is `0`. -/
def claimChangePercent (hs : List PortfolioHolding) : ℚ :=
  if priorOf hs = 0 then 0 else (totalOf hs - priorOf hs) / priorOf hs * 100

/-!
CoinGecko price service, from `services/coingecko.ts`.  The module-level
mutable `priceCache` becomes an explicit state argument and result; the
`fetch` of the batched price URL becomes an `Except`-valued parameter
(`Except.error` for a non-ok response or thrown error, carrying the
message of the `Error` the code would throw); `Date.now()` becomes the
explicit `now` argument.  The result additionally counts how many remote
calls the invocation performed.
-/

/-- A normalized price entry, `{ usd, usd_24h_change }`. -/
structure PriceEntry where
  usd : ℚ
  usd24hChange : ℚ
deriving DecidableEq, Repr

/-- A raw provider price entry before normalization; either field may be
absent (the code defaults each to 0 with `?? 0`). -/
structure RawPriceEntry where
  usd : Option ℚ
  usd24hChange : Option ℚ
deriving DecidableEq, Repr

/-- CachedPrice, from `services/coingecko.ts`. -/
structure CachedPrice where
  prices : List (String × PriceEntry)
  timestamp : ℤ
deriving DecidableEq, Repr

/-- CACHE_TTL_MS = 5 * 60 * 1000. -/
def CACHE_TTL_MS : ℤ := 5 * 60 * 1000

/-- The SYMBOL_TO_ID table, from `services/coingecko.ts`. -/
def SYMBOL_TO_ID : List (String × String) :=
  [("BTC", "bitcoin"), ("ETH", "ethereum"), ("SOL", "solana"),
   ("USDT", "tether"), ("USDC", "usd-coin"), ("DAI", "dai"),
   ("MATIC", "matic-network"), ("AVAX", "avalanche-2"), ("DOT", "polkadot"),
   ("LINK", "chainlink"), ("UNI", "uniswap"), ("AAVE", "aave"),
   ("CRO", "crypto-com-chain"), ("BLUR", "blur"), ("ARB", "arbitrum"),
   ("OP", "optimism"), ("DOGE", "dogecoin"), ("SHIB", "shiba-inu"),
   ("ADA", "cardano"), ("XRP", "ripple"), ("ATOM", "cosmos")]

/-- getCoingeckoId, from `services/coingecko.ts`. -/
def getCoingeckoId (symbol : String) : Option String :=
  SYMBOL_TO_ID.lookup symbol.toUpper

/-- JavaScript object spread merge `{ ...old, ...new }` on association
lists with unique keys: keys of `old` keep their position (values
overwritten by `new` where present), keys of `new` not in `old` are
appended in order. -/
def jsMerge (old new : List (String × PriceEntry)) : List (String × PriceEntry) :=
  (old.map (fun p => match new.lookup p.1 with
    | some v => (p.1, v)
    | none => p)) ++
  new.filter (fun p => (old.lookup p.1).isNone)

/-- Outcome of one `fetchPrices` invocation: the returned or thrown
value, the cache state after the call, and the number of remote
(network) calls performed. -/
structure FetchPricesOutcome where
  result : Except String (List (String × PriceEntry))
  cache : Option CachedPrice
  remoteCalls : ℕ
deriving Repr

/-- Normalization of the raw provider payload: default missing `usd` and
`usd_24h_change` to 0 (the `Object.entries` loop). -/
def normalizePrices (data : List (String × RawPriceEntry)) : List (String × PriceEntry) :=
  data.map (fun p => (p.1, ⟨p.2.usd.getD 0, p.2.usd24hChange.getD 0⟩))

/-- fetchPrices, from `services/coingecko.ts`.  `remote` is the outcome
of `fetch` + `response.json()` on the batched URL for `coinIds` (only
consulted when the code reaches the network). -/
def fetchPrices (cache : Option CachedPrice) (now : ℤ) (coinIds : List String)
    (remote : Except String (List (String × RawPriceEntry))) : FetchPricesOutcome :=
  let hit :=
    match cache with
    | some c =>
      decide (now - c.timestamp < CACHE_TTL_MS) &&
        coinIds.all (fun id => (c.prices.lookup id).isSome)
    | none => false
  if hit then
    -- cache present, age below TTL, every requested id present:
    -- return priceCache.prices (the whole cached record) with no fetch
    ⟨.ok ((cache.getD ⟨[], 0⟩).prices), cache, 0⟩
  else
    match remote with
    | .error e => ⟨.error e, cache, 1⟩
    | .ok data =>
      let prices := normalizePrices data
      ⟨.ok prices, some ⟨jsMerge ((cache.map (fun c => c.prices)).getD []) prices, now⟩, 1⟩

/-!
Aggregator, from `services/aggregator.ts` of crypto-dashboard-web
(`fetchPlatformData` and `fetchAllPlatformData`).  The credential store
(`useSettingsStore.getState().getCredential`, a total lookup into
localStorage) is modelled as a total function to `Option String`; each
remote adapter call is an `Except String` outcome supplied by an
`AdapterEnv`.
-/

/-- Credential provider: `getCredential(platform, key)` returning
`string | null`. -/
structure CredStore where
  get : Platform → String → Option String

/-- JavaScript falsiness of a `string | null` value: `null` and the
empty string are falsy. -/
def falsy : Option String → Bool
  | none => true
  | some s => s = ""

/-- parseAddresses, from `services/aggregator.ts`: split a
newline/comma-separated address string into trimmed non-empty pieces
(`null` and `""` give the empty list). -/
def parseAddresses : Option String → List String
  | none => []
  | some raw =>
    if raw = "" then []
    else ((raw.split (fun c => c = '\n' || c = ',')).map (fun s => s.trim)).filter
      (fun s => 0 < s.length)

/-- Outcomes of every remote operation one aggregation run can perform,
one field per network-touching call of the adapters.  Per-address
operations are functions of the address. -/
structure AdapterEnv where
  cryptoComHoldings : Except String (List PortfolioHolding)
  cryptoComTrades : Except String (List TradeRecord)
  hlClearinghousePositions : Except String (List PortfolioHolding)
  hlSpotBalances : Except String (List PortfolioHolding)
  hlFills : Except String (List TradeRecord)
  blurRawHoldings : Except String (List PortfolioHolding)
  blurTrades : Except String (List TradeRecord)
  ethPriceEntry : Except String (Option PriceEntry)
  ethHoldings : String → Except String (List PortfolioHolding)
  ethTrades : String → Except String (List TradeRecord)
  btcBalance : String → Except String ℚ
  btcPriceEntry : Except String (Option PriceEntry)
  solHoldings : String → Except String (List PortfolioHolding)
  solTrades : String → Except String (List TradeRecord)

/-- fetchHyperliquidHoldings, from `services/hyperliquid.ts`:
`Promise.all` of the clearinghouse state and the spot balances, where
the spot-balances rejection is swallowed by `.catch(() => [])`; only the
clearinghouse rejection can reject the combined call. -/
def fetchHyperliquidHoldings (env : AdapterEnv) : Except String (List PortfolioHolding) :=
  match env.hlClearinghousePositions with
  | .error e => .error e
  | .ok positions =>
    .ok (positions ++ (match env.hlSpotBalances with
      | .ok balances => balances
      | .error _ => []))

/-- enrichBlurHoldingsWithEthPrice, from `services/blur.ts`: rewrite the
USD price and value fields from the `_ethValue` annotation and the ETH
spot price. -/
def enrichBlurHoldingsWithEthPrice (holdings : List PortfolioHolding)
    (ethPriceUsd : ℚ) : List PortfolioHolding :=
  holdings.map (fun h =>
    { h with
      currentPriceUsd := (h.ethValue.getD 0) * ethPriceUsd / max h.amount 1,
      currentValueUsd := (h.ethValue.getD 0) * ethPriceUsd })

/-- fetchBitcoinHoldings, from `services/bitcoin.ts`: per-address
balances with failures defaulted to 0, no holding when the total is not
positive, otherwise one BTC holding priced via `fetchPrices(["bitcoin"])`
(whose outcome, projected to the `"bitcoin"` entry, is
`env.btcPriceEntry`). -/
def fetchBitcoinHoldings (env : AdapterEnv) (addresses : List String) :
    Except String (List PortfolioHolding) :=
  if addresses.isEmpty then .ok []
  else
    let balances := addresses.map (fun a => match env.btcBalance a with
      | .ok b => b
      | .error _ => 0)
    let totalBtc := balances.sum
    if totalBtc ≤ 0 then .ok []
    else
      match env.btcPriceEntry with
      | .error e => .error e
      | .ok entry =>
        .ok [{ asset := "BTC", platform := .bitcoin, amount := totalBtc,
               currentPriceUsd := (entry.map (fun p => p.usd)).getD 0,
               currentValueUsd := totalBtc * ((entry.map (fun p => p.usd)).getD 0),
               change24hPercent := (entry.map (fun p => p.usd24hChange)).getD 0 }]

/-- fetchPlatformData, from `services/aggregator.ts`.  A `Promise.all`
whose members can all reject is modelled with the left-most rejection as
the reported reason (the promises are created in array order).  The
Etherscan, Helius and Reservoir API keys only alter request URLs and
headers, so they do not appear beyond credential resolution. -/
def fetchPlatformData (p : Platform) (creds : CredStore) (env : AdapterEnv) :
    Except String (List PortfolioHolding × List TradeRecord) :=
  match p with
  | .cryptoCom =>
    if falsy (creds.get .cryptoCom "apiKey") || falsy (creds.get .cryptoCom "apiSecret") then
      .ok ([], [])
    else do
      let holdings ← env.cryptoComHoldings
      let trades ← env.cryptoComTrades
      return (holdings, trades)
  | .hyperliquid =>
    if falsy (creds.get .hyperliquid "walletAddress") then .ok ([], [])
    else do
      let holdings ← fetchHyperliquidHoldings env
      let trades ← env.hlFills
      return (holdings, trades)
  | .blur =>
    if falsy (creds.get .blur "walletAddress") then .ok ([], [])
    else do
      let rawHoldings ← env.blurRawHoldings
      let trades ← env.blurTrades
      let ethEntry ← env.ethPriceEntry
      let ethPriceUsd := (ethEntry.map (fun e => e.usd)).getD 0
      return (enrichBlurHoldingsWithEthPrice rawHoldings ethPriceUsd, trades)
  | .ethereum =>
    let addresses := parseAddresses (creds.get .ethereum "walletAddress")
    if addresses.isEmpty then .ok ([], [])
    else
      -- per-address fetches are wrapped in .catch(() => []), so the
      -- branch cannot reject
      .ok (addresses.flatMap (fun a => ((env.ethHoldings a).toOption).getD []),
           addresses.flatMap (fun a => ((env.ethTrades a).toOption).getD []))
  | .bitcoin =>
    let addresses := parseAddresses (creds.get .bitcoin "walletAddress")
    if addresses.isEmpty then .ok ([], [])
    else do
      let holdings ← fetchBitcoinHoldings env addresses
      return (holdings, [])
  | .solana =>
    let addresses := parseAddresses (creds.get .solana "walletAddress")
    if addresses.isEmpty then .ok ([], [])
    else
      .ok (addresses.flatMap (fun a => ((env.solHoldings a).toOption).getD []),
           addresses.flatMap (fun a => ((env.solTrades a).toOption).getD []))
  | .other => .ok ([], [])

/-- One entry of the aggregator error list, `{ platform, error }`. -/
structure PlatformError where
  platform : Platform
  error : String
deriving DecidableEq, Repr

/-- AggregatorResult, from `services/aggregator.ts`. -/
structure AggregatorResult where
  holdings : List PortfolioHolding
  trades : List TradeRecord
  errors : List PlatformError
deriving DecidableEq, Repr

/-- The fixed platform list of `fetchAllPlatformData`. -/
def aggregatorPlatforms : List Platform :=
  [.ethereum, .bitcoin, .solana, .cryptoCom, .hyperliquid, .blur]

/-- The trade sort of `fetchAllPlatformData`:
`allTrades.sort((a, b) => new Date(b.date).getTime() - new Date(a.date).getTime())`.
ECMAScript `Array#sort` is stable, and with this consistent comparator
its result is the unique stable descending reordering, which
`List.mergeSort` with the matching boolean order computes.  `parse`
abstracts `new Date(s).getTime()`. -/
def sortTradesByDateDesc (parse : String → ℤ) (trades : List TradeRecord) :
    List TradeRecord :=
  trades.mergeSort (fun a b => decide (parse b.date ≤ parse a.date))

/-- Fan-in step of `fetchAllPlatformData`: the for-loop over the
`Promise.allSettled` outcomes (connection-status side effects on the
settings store are not part of the returned result). -/
def mergeStep (outcome : Platform → Except String (List PortfolioHolding × List TradeRecord))
    (acc : List PortfolioHolding × List TradeRecord × List PlatformError)
    (p : Platform) : List PortfolioHolding × List TradeRecord × List PlatformError :=
  match outcome p with
  | .ok (holdings, trades) => (acc.1 ++ holdings, acc.2.1 ++ trades, acc.2.2)
  | .error e => (acc.1, acc.2.1, acc.2.2 ++ [⟨p, e⟩])

/-- fetchAllPlatformData, from `services/aggregator.ts`, parameterized
over the per-platform settled outcome (`outcome p` is the settlement of
the task `fetchPlatformData(p, getCredential)`; `Promise.allSettled`
never rejects, so the function is total).  The claims over "every
combination of per-platform outcomes" quantify over `outcome`. -/
def fetchAllPlatformData (parse : String → ℤ)
    (outcome : Platform → Except String (List PortfolioHolding × List TradeRecord)) :
    AggregatorResult :=
  let merged := aggregatorPlatforms.foldl (mergeStep outcome) ([], [], [])
  { holdings := merged.1,
    trades := sortTradesByDateDesc parse merged.2.1,
    errors := merged.2.2 }

/-- The full aggregation run: every platform task runs
`fetchPlatformData` against the credential store and the adapter
environment. -/
def fetchAllFromEnv (parse : String → ℤ) (creds : CredStore) (env : AdapterEnv) :
    AggregatorResult :=
  fetchAllPlatformData parse (fun p => fetchPlatformData p creds env)

/-!
Blur/Reservoir NFT holdings, phase 1, from `fetchNftHoldings` in
`services/blur.ts`: group owned tokens by collection, summing quantity
and floor-price-weighted native-coin (ETH) value, and return holdings
with zeroed USD fields and the `_ethValue` annotation.  The network call
and JSON decoding are abstracted to the token list, each token already
carrying the `?? 0` / `?? 1` defaulted fields the loop reads.
-/

/-- One entry of the Reservoir token response as the grouping loop reads
it: collection id and name (after their `??` defaults), the defaulted
floor price in ETH, and the defaulted ownership token count. -/
structure NftToken where
  collectionId : String
  collectionName : String
  floorPrice : ℚ
  quantity : ℚ
deriving DecidableEq, Repr

/-- Accumulator record per collection: `{ name, count, totalValueEth }`. -/
structure CollectionAcc where
  name : String
  count : ℚ
  totalValueEth : ℚ
deriving DecidableEq, Repr

/-- One step of the grouping loop: create the record on first sight of a
collection id (in insertion order), then add `quantity` to `count` and
`floorPrice * quantity` to `totalValueEth`. -/
def addToken (acc : List (String × CollectionAcc)) (t : NftToken) :
    List (String × CollectionAcc) :=
  let bump := fun (c : CollectionAcc) =>
    { c with count := c.count + t.quantity,
             totalValueEth := c.totalValueEth + t.floorPrice * t.quantity }
  if (acc.lookup t.collectionId).isSome then
    acc.map (fun p => if p.1 = t.collectionId then (p.1, bump p.2) else p)
  else
    acc ++ [(t.collectionId, bump ⟨t.collectionName, 0, 0⟩)]

/-- The grouping loop over all tokens (a JavaScript object keyed by
collection id, in insertion order). -/
def groupCollections (tokens : List NftToken) : List (String × CollectionAcc) :=
  tokens.foldl addToken []

/-- fetchNftHoldings, from `services/blur.ts` (pure part):
`Object.values` of the grouped collections, mapped to holdings with
zeroed USD fields and the `_ethValue` annotation. -/
def fetchNftHoldings (tokens : List NftToken) : List PortfolioHolding :=
  (groupCollections tokens).map (fun p =>
    { asset := "NFT: " ++ p.2.name,
      platform := .blur,
      amount := p.2.count,
      currentPriceUsd := 0,
      currentValueUsd := 0,
      change24hPercent := 0,
      ethValue := some p.2.totalValueEth })

/-!
Crypto.com account summary, from `fetchAccountSummary` in
`services/crypto-com.ts` (pure part): filter accounts with
`Number(a.available) + Number(a.order) > 0`, then map each to a holding
with `amount = available + order + stake`, priced through
`getCoingeckoId` and the `fetchPrices` result (abstracted to the
`prices` lookup).
-/

/-- One account of the account-summary response, fields already through
`Number(...)`. -/
structure CdcAccount where
  currency : String
  available : ℚ
  order : ℚ
  stake : ℚ
deriving DecidableEq, Repr

/-- fetchAccountSummary, from `services/crypto-com.ts` (pure part after
the signed request and the price fetch, whose per-id lookups are
`prices`). -/
def fetchAccountSummaryHoldings (accounts : List CdcAccount)
    (prices : String → Option PriceEntry) : List PortfolioHolding :=
  let balances := accounts.filter (fun a => 0 < a.available + a.order)
  balances.map (fun a =>
    let amount := a.available + a.order + a.stake
    let price := match getCoingeckoId a.currency with
      | some id => prices id
      | none => none
    { asset := a.currency,
      platform := .cryptoCom,
      amount := amount,
      currentPriceUsd := (price.map (fun e => e.usd)).getD 0,
      currentValueUsd := amount * ((price.map (fun e => e.usd)).getD 0),
      change24hPercent := (price.map (fun e => e.usd24hChange)).getD 0 })

/-!
HMAC-SHA256 request signing, from `hmacSign` and `signedRequest` in
`services/crypto-com.ts`.  The Web Crypto primitive
`crypto.subtle.sign("HMAC", ...)` is HMAC-SHA256; SHA-256 and HMAC are
implemented here from FIPS 180-4 / RFC 2104 over byte lists (`Nat`
values below 256), and `TextEncoder` is the UTF-8 encoder.
-/

/-- Truncation to a 32-bit word. -/
def w32 (x : Nat) : Nat := x % 4294967296

/-- Right rotation of a 32-bit word. -/
def rotr (n x : Nat) : Nat := w32 ((x >>> n) ||| (x <<< (32 - n)))

/-- SHA-256 big sigma 0. -/
def bsig0 (x : Nat) : Nat := (rotr 2 x) ^^^ (rotr 13 x) ^^^ (rotr 22 x)

/-- SHA-256 big sigma 1. -/
def bsig1 (x : Nat) : Nat := (rotr 6 x) ^^^ (rotr 11 x) ^^^ (rotr 25 x)

/-- SHA-256 small sigma 0. -/
def ssig0 (x : Nat) : Nat := (rotr 7 x) ^^^ (rotr 18 x) ^^^ (x >>> 3)

/-- SHA-256 small sigma 1. -/
def ssig1 (x : Nat) : Nat := (rotr 17 x) ^^^ (rotr 19 x) ^^^ (x >>> 10)

/-- SHA-256 choice function (the complement is XOR with the 32-bit
mask). -/
def chV (e f g : Nat) : Nat := (e &&& f) ^^^ ((e ^^^ 4294967295) &&& g)

/-- SHA-256 majority function. -/
def majV (a b c : Nat) : Nat := (a &&& b) ^^^ (a &&& c) ^^^ (b &&& c)

/-- SHA-256 round constants (FIPS 180-4, written in decimal). -/
def sha256K : List Nat :=
  [1116352408, 1899447441, 3049323471, 3921009573, 961987163,
   1508970993, 2453635748, 2870763221, 3624381080, 310598401,
   607225278, 1426881987, 1925078388, 2162078206, 2614888103,
   3248222580, 3835390401, 4022224774, 264347078, 604807628,
   770255983, 1249150122, 1555081692, 1996064986, 2554220882,
   2821834349, 2952996808, 3210313671, 3336571891, 3584528711,
   113926993, 338241895, 666307205, 773529912, 1294757372,
   1396182291, 1695183700, 1986661051, 2177026350, 2456956037,
   2730485921, 2820302411, 3259730800, 3345764771, 3516065817,
   3600352804, 4094571909, 275423344, 430227734, 506948616,
   659060556, 883997877, 958139571, 1322822218, 1537002063,
   1747873779, 1955562222, 2024104815, 2227730452, 2361852424,
   2428436474, 2756734187, 3204031479, 3329325298]

/-- SHA-256 initial hash value (FIPS 180-4, written in decimal). -/
def sha256H0 : List Nat :=
  [1779033703, 3144134277, 1013904242, 2773480762,
   1359893119, 2600822924, 528734635, 1541459225]

/-- Big-endian packing of bytes into 32-bit words. -/
def toWordsBE : List Nat → List Nat
  | b0 :: b1 :: b2 :: b3 :: rest =>
    (b0 * 16777216 + b1 * 65536 + b2 * 256 + b3) :: toWordsBE rest
  | _ => []

/-- Big-endian 8-byte encoding of the bit length. -/
def lenBytesBE (bits : Nat) : List Nat :=
  [bits >>> 56 % 256, bits >>> 48 % 256, bits >>> 40 % 256, bits >>> 32 % 256,
   bits >>> 24 % 256, bits >>> 16 % 256, bits >>> 8 % 256, bits % 256]

/-- SHA-256 message padding to a multiple of 64 bytes. -/
def sha256Pad (msg : List Nat) : List Nat :=
  msg ++ [128] ++ List.replicate ((119 - msg.length % 64) % 64) 0 ++
    lenBytesBE (8 * msg.length)

/-- Fuel-driven split into 64-byte chunks (structural, so that concrete
hashes reduce inside `decide`). -/
def chunks64Go : Nat → List Nat → List (List Nat)
  | 0, _ => []
  | fuel + 1, l => if l.isEmpty then [] else l.take 64 :: chunks64Go fuel (l.drop 64)

/-- Split a byte list into 64-byte chunks. -/
def chunks64 (l : List Nat) : List (List Nat) := chunks64Go l.length l

/-- Message-schedule extension loop; the word list is kept reversed
(newest word first). -/
def extendLoop : List Nat → Nat → List Nat
  | ws, 0 => ws
  | ws, n + 1 =>
    extendLoop
      ((w32 (ssig1 (ws.getD 1 0) + ws.getD 6 0 + ssig0 (ws.getD 14 0) + ws.getD 15 0)) :: ws)
      n

/-- The 64-word message schedule of one block. -/
def messageSchedule (block : List Nat) : List Nat :=
  (extendLoop (toWordsBE block).reverse 48).reverse

/-- One SHA-256 compression round on the 8-word working state. -/
def roundStep (st : List Nat) (kw : Nat × Nat) : List Nat :=
  match st with
  | [a, b, c, d, e, f, g, h] =>
    let t1 := w32 (h + bsig1 e + chV e f g + kw.1 + kw.2)
    let t2 := w32 (bsig0 a + majV a b c)
    [w32 (t1 + t2), a, b, c, w32 (d + t1), e, f, g]
  | st => st

/-- Compression of one 64-byte block into the hash state. -/
def compressBlock (H : List Nat) (block : List Nat) : List Nat :=
  let ws := messageSchedule block
  let final := (sha256K.zip ws).foldl roundStep H
  H.zipWith (fun x y => w32 (x + y)) final

/-- SHA-256 of a byte list, as a 32-byte list. -/
def sha256 (msg : List Nat) : List Nat :=
  let H := (chunks64 (sha256Pad msg)).foldl compressBlock sha256H0
  H.flatMap (fun w => [w >>> 24 % 256, w >>> 16 % 256, w >>> 8 % 256, w % 256])

/-- HMAC-SHA256 (RFC 2104) of a message under a key, both byte lists. -/
def hmacSha256 (key msg : List Nat) : List Nat :=
  let k0 := if 64 < key.length then sha256 key else key
  let kp := k0 ++ List.replicate (64 - k0.length) 0
  let ipadKey := kp.map (fun b => b ^^^ 54)
  let opadKey := kp.map (fun b => b ^^^ 92)
  sha256 (opadKey ++ sha256 (ipadKey ++ msg))

/-- Lowercase hexadecimal digit, as `Number.prototype.toString(16)`
produces. -/
def hexDigit (n : Nat) : Char :=
  if n < 10 then Char.ofNat (48 + n) else Char.ofNat (87 + n)

/-- Two-digit lowercase hex rendering of a byte,
`b.toString(16).padStart(2, "0")` for `b < 256`. -/
def byteToHex (b : Nat) : String := String.mk [hexDigit (b / 16), hexDigit (b % 16)]

/-- The `.map(byteToHex).join("")` hex encoding of `hmacSign`. -/
def hexEncode (bytes : List Nat) : String := String.join (bytes.map byteToHex)

/-- UTF-8 encoding of one character (what `TextEncoder` emits). -/
def utf8EncodeChar (c : Char) : List Nat :=
  let n := c.toNat
  if n < 128 then [n]
  else if n < 2048 then [192 + n / 64, 128 + n % 64]
  else if n < 65536 then [224 + n / 4096, 128 + n / 64 % 64, 128 + n % 64]
  else [240 + n / 262144, 128 + n / 4096 % 64, 128 + n / 64 % 64, 128 + n % 64]

/-- UTF-8 encoding of a string as a byte list. -/
def utf8Bytes (s : String) : List Nat := (s.data.map utf8EncodeChar).flatten

/-- hmacSign, from `services/crypto-com.ts`: HMAC-SHA256 over the UTF-8
encodings, hex-encoded lowercase. -/
def hmacSign (message secret : String) : String :=
  hexEncode (hmacSha256 (utf8Bytes secret) (utf8Bytes message))

/-- String order used by the default `Array.prototype.sort()` comparator
(UTF-16 code-unit order; on the ASCII parameter keys of this service it
coincides with the code-point order of Lean strings). -/
def strLeb (a b : String) : Bool := decide (a ≤ b)

/-- Parameter concatenation, from `signedRequest`:
`Object.keys(params).sort().map((key) => key + params[key]).join("")`.
A JavaScript object is an association list with unique keys whose
values are rendered by template-literal interpolation; `params` carries
the rendered values. -/
def paramString (params : List (String × String)) : String :=
  String.join (((params.map Prod.fst).mergeSort strLeb).map
    (fun k => k ++ ((params.lookup k).getD "")))

/-- Signature payload of `signedRequest`:
`method + id + api_key + paramString + nonce` (the numeric `id` and
`nonce` appear through their template-literal decimal rendering, so they
are taken here as strings). -/
def sigPayload (method id apiKey : String) (params : List (String × String))
    (nonce : String) : String :=
  method ++ id ++ apiKey ++ paramString params ++ nonce

/-- The `sig` field computed by `signedRequest`. -/
def signedRequestSig (method id apiKey : String) (params : List (String × String))
    (nonce secret : String) : String :=
  hmacSign (sigPayload method id apiKey params nonce) secret

/-- Modelled from the wording of the specification, for comparison with
the code: every parameter key sorted lexicographically, each key
immediately followed by its value, with no separators. -/
def sortedParamsConcatenation (params : List (String × String)) : String :=
  String.join ((params.mergeSort (fun a b => strLeb a.1 b.1)).map
    (fun p => p.1 ++ p.2))

/-- The set of lowercase hexadecimal digit characters. -/
def lowercaseHexChars : List Char := "0123456789abcdef".toList

/-!
Theorems.
-/

/-- The `totalValueUsd` reduce with an arbitrary starting accumulator
equals the starting value plus the rational total. -/
theorem totalValueJS_go (hs : List PortfolioHolding) :
    ∀ a : ℚ,
      List.foldl (fun (sum : JSNum) (h : PortfolioHolding) =>
        sum.add (.num h.currentValueUsd)) (.num a) hs = .num (a + totalOf hs) := by
  induction hs with
  | nil => intro a; simp [totalOf]
  | cons h t ih =>
    intro a
    have step : (JSNum.num a).add (.num h.currentValueUsd) =
        .num (a + h.currentValueUsd) := rfl
    simp only [List.foldl_cons, step, ih]
    simp only [totalOf, List.map_cons, List.sum_cons]
    exact congrArg JSNum.num (by ring)

/-- The reduce computing `totalValueUsd` equals the rational total. -/
theorem totalValueJS_eq (hs : List PortfolioHolding) :
    totalValueJS hs = .num (totalOf hs) := by
  have := totalValueJS_go hs 0
  simpa [totalValueJS] using this

/-- The `prevTotal` reduce with an arbitrary starting accumulator, on
holdings whose prior divisors are all nonzero, equals the starting value
plus the rational prior total. -/
theorem prevTotalJS_go (hs : List PortfolioHolding)
    (hden : ∀ h ∈ hs, priorDivisor h ≠ 0) :
    ∀ a : ℚ,
      List.foldl (fun (sum : JSNum) (h : PortfolioHolding) =>
        sum.add ((JSNum.num h.currentValueUsd).div (.num (priorDivisor h))))
        (.num a) hs = .num (a + priorOf hs) := by
  induction hs with
  | nil => intro a; simp [priorOf]
  | cons h t ih =>
    intro a
    have hd : priorDivisor h ≠ 0 := hden h (List.mem_cons_self h t)
    have step : (JSNum.num a).add
        ((JSNum.num h.currentValueUsd).div (.num (priorDivisor h))) =
        .num (a + h.currentValueUsd / priorDivisor h) := by
      simp [JSNum.div, hd, JSNum.add]
    simp only [List.foldl_cons, step,
      ih (fun x hx => hden x (List.mem_cons_of_mem _ hx))]
    simp only [priorOf, List.map_cons, List.sum_cons]
    exact congrArg JSNum.num (by ring)

/-- The reduce computing `prevTotal` equals the rational prior total
when every prior divisor is nonzero. -/
theorem prevTotalJS_eq (hs : List PortfolioHolding)
    (hden : ∀ h ∈ hs, priorDivisor h ≠ 0) :
    prevTotalJS hs = .num (priorOf hs) := by
  have := prevTotalJS_go hs hden 0
  simpa [prevTotalJS] using this

/-- Claim C3, amended: on every holdings list whose per-holding prior
divisors are nonzero, the valuation returns the exact totals: the total
current value, the 24h dollar change against the inferred prior total,
and the percentage change computed as the ratio times 100 whenever the
prior total is strictly positive and 0 otherwise (the code tests
`prevTotal > 0`, not `prevTotal = 0`, so a zero or negative prior total
yields 0). -/
theorem setHoldings_valuation_correct (hs : List PortfolioHolding)
    (hden : ∀ h ∈ hs, priorDivisor h ≠ 0) :
    (setHoldingsValuation hs).totalValueUsd = .num (totalOf hs) ∧
    (setHoldingsValuation hs).change24hUsd = .num (totalOf hs - priorOf hs) ∧
    (setHoldingsValuation hs).change24hPercent =
      .num (if 0 < priorOf hs then (totalOf hs - priorOf hs) / priorOf hs * 100
            else 0) := by
  have htot := totalValueJS_eq hs
  have hprev := prevTotalJS_eq hs hden
  have hsub : (JSNum.num (totalOf hs)).sub (.num (priorOf hs)) =
      .num (totalOf hs - priorOf hs) := by
    simp only [JSNum.sub, JSNum.neg, JSNum.add]
    ring_nf
  refine ⟨?_, ?_, ?_⟩
  · simp only [setHoldingsValuation, htot]
  · simp only [setHoldingsValuation, htot, hprev, hsub]
  · simp only [setHoldingsValuation, htot, hprev, hsub, JSNum.gtb]
    by_cases hpos : 0 < priorOf hs
    · have hne : priorOf hs ≠ 0 := ne_of_gt hpos
      simp [hpos, JSNum.div, JSNum.mul, hne]
    · simp [hpos]

/-- Witness for `setHoldings_valuation_correct`: the empty list yields
the zero triple, and the single holding with value 1000 and 24h change
25 percent yields a 200 dollar change (prior value 800) and 25 percent. -/
theorem setHoldings_valuation_correct_witness :
    setHoldingsValuation [] = ⟨.num 0, .num 0, .num 0⟩ ∧
    (setHoldingsValuation
      [{ asset := "BTC", platform := .bitcoin, amount := 1,
         currentPriceUsd := 1000, currentValueUsd := 1000,
         change24hPercent := 25 }]).change24hUsd = .num 200 ∧
    (setHoldingsValuation
      [{ asset := "BTC", platform := .bitcoin, amount := 1,
         currentPriceUsd := 1000, currentValueUsd := 1000,
         change24hPercent := 25 }]).change24hPercent = .num 25 := by
  have hnil := setHoldings_valuation_correct [] (by simp)
  have hone := setHoldings_valuation_correct
    [{ asset := "BTC", platform := .bitcoin, amount := 1,
       currentPriceUsd := 1000, currentValueUsd := 1000,
       change24hPercent := 25 }]
    (by intro h hh; simp at hh; subst hh; norm_num [priorDivisor])
  refine ⟨?_, ?_, ?_⟩
  · have heta : setHoldingsValuation [] =
        ⟨(setHoldingsValuation []).totalValueUsd,
         (setHoldingsValuation []).change24hUsd,
         (setHoldingsValuation []).change24hPercent⟩ := rfl
    rw [heta, hnil.1, hnil.2.1, hnil.2.2]
    norm_num [totalOf, priorOf]
  · refine hone.2.1.trans ?_
    norm_num [totalOf, priorOf, priorDivisor]
  · refine hone.2.2.trans ?_
    norm_num [totalOf, priorOf, priorDivisor]

/-- The concrete holding refuting the literal zero-denominator clause of
claim C3: its inferred prior value is negative. -/
def negPriorHolding : PortfolioHolding :=
  { asset := "X", platform := .other, amount := 0, currentPriceUsd := 0,
    currentValueUsd := 100, change24hPercent := -200 }

/-- Counterexample to claim C3 as stated: for the holding with value 100
and 24h change -200 percent the prior total is -100, which is nonzero,
so the claim requires the ratio formula (giving -200), but the code
returns 0 because it guards on `prevTotal > 0` rather than on a zero
denominator. -/
theorem setHoldings_percent_zero_guard_cex :
    (setHoldingsValuation [negPriorHolding]).change24hPercent = .num 0 ∧
    priorOf [negPriorHolding] = -100 ∧
    claimChangePercent [negPriorHolding] = -200 ∧
    ((-200 : ℚ) ≠ 0) := by
  refine ⟨?_, ?_, ?_, by norm_num⟩
  · simp only [setHoldingsValuation, totalValueJS, prevTotalJS, List.foldl_cons,
      List.foldl_nil, negPriorHolding, priorDivisor]
    norm_num [JSNum.add, JSNum.div, JSNum.gtb]
  · norm_num [priorOf, negPriorHolding, priorDivisor]
  · norm_num [claimChangePercent, priorOf, totalOf, negPriorHolding, priorDivisor]

/-- The concrete holding of the -100-percent edge case of claim C4. -/
def minus100Holding : PortfolioHolding :=
  { asset := "X", platform := .other, amount := 1, currentPriceUsd := 0,
    currentValueUsd := 1000, change24hPercent := -100 }

/-- Claim C4 fails on the code: with a holding at
`change24hPercent = -100` the prior-value division is unguarded, the
prior total becomes +Infinity, `change24hUsd` becomes -Infinity and
`change24hPercent` becomes NaN (only `totalValueUsd` stays finite). -/
theorem setHoldings_minus100_not_guarded :
    (setHoldingsValuation [minus100Holding]).totalValueUsd = .num 1000 ∧
    (setHoldingsValuation [minus100Holding]).change24hUsd = .inf false ∧
    (setHoldingsValuation [minus100Holding]).change24hPercent = .nan ∧
    ((setHoldingsValuation [minus100Holding]).change24hUsd).isFinite = false ∧
    ((setHoldingsValuation [minus100Holding]).change24hPercent).isFinite = false := by
  have hdiv : priorDivisor minus100Holding = 0 := by
    norm_num [priorDivisor, minus100Holding]
  have hval : minus100Holding.currentValueUsd = (1000 : ℚ) := rfl
  have hv1 : totalValueJS [minus100Holding] = .num 1000 := by
    rw [totalValueJS_eq]
    norm_num [totalOf, hval]
  have hv2 : prevTotalJS [minus100Holding] = .inf true := by
    simp only [prevTotalJS, List.foldl_cons, List.foldl_nil, hdiv, hval]
    norm_num [JSNum.div, JSNum.add]
  have hv : setHoldingsValuation [minus100Holding] =
      ⟨.num 1000, .inf false, .nan⟩ := by
    simp only [setHoldingsValuation, hv1, hv2]
    rfl
  rw [hv]
  exact ⟨rfl, rfl, rfl, rfl, rfl⟩

/-- The concrete cache refuting the subset clause of claim C5: it holds
an entry for an id that is not requested. -/
def twoEntryCache : CachedPrice :=
  ⟨[("bitcoin", ⟨50000, 1⟩), ("ethereum", ⟨3000, 2⟩)], 0⟩

/-- Counterexample to claim C5 as stated: with a fresh cache covering
`["bitcoin"]` and more, the call performs zero remote calls but returns
the entire cached map, not the subset restricted to the requested ids —
the unrequested id `"ethereum"` is present in the result. -/
theorem fetchPrices_cache_hit_full_map_cex :
    (fetchPrices (some twoEntryCache) 1000 ["bitcoin"] (.error "unused")).remoteCalls
      = 0 ∧
    (fetchPrices (some twoEntryCache) 1000 ["bitcoin"] (.error "unused")).result =
      .ok twoEntryCache.prices ∧
    (twoEntryCache.prices.lookup "ethereum").isSome = true ∧
    "ethereum" ∉ (["bitcoin"] : List String) := by
  refine ⟨rfl, rfl, rfl, by simp⟩

/-- Claim C5, amended: whenever the cache is present, its age is below
the TTL, and every requested id is cached, `fetchPrices` performs zero
remote calls, leaves the cache unchanged, and returns the entire cached
price map (a superset of the requested ids) directly. -/
theorem fetchPrices_cache_hit_no_remote (c : CachedPrice) (now : ℤ)
    (coinIds : List String)
    (remote : Except String (List (String × RawPriceEntry)))
    (hfresh : now - c.timestamp < CACHE_TTL_MS)
    (hcov : ∀ id ∈ coinIds, (c.prices.lookup id).isSome = true) :
    fetchPrices (some c) now coinIds remote = ⟨.ok c.prices, some c, 0⟩ := by
  have hh : (decide (now - c.timestamp < CACHE_TTL_MS) &&
      coinIds.all (fun id => (c.prices.lookup id).isSome)) = true := by
    rw [Bool.and_eq_true, decide_eq_true_eq, List.all_eq_true]
    exact ⟨hfresh, hcov⟩
  simp only [fetchPrices, hh, if_true, Option.getD_some]

/-- Witness for `fetchPrices_cache_hit_no_remote` at the concrete fresh
two-entry cache and the request for bitcoin alone. -/
theorem fetchPrices_cache_hit_no_remote_witness :
    fetchPrices (some twoEntryCache) 1000 ["bitcoin"] (.error "unused") =
      ⟨.ok twoEntryCache.prices, some twoEntryCache, 0⟩ :=
  fetchPrices_cache_hit_no_remote twoEntryCache 1000 ["bitcoin"] (.error "unused")
    (by decide) (by decide)

/-- The concrete phase-1 Blur holding refuting the price-field clause of
claim C7: two tokens in a collection worth 1 ETH total. -/
def blurCexHolding : PortfolioHolding :=
  { asset := "NFT: X", platform := .blur, amount := 2, currentPriceUsd := 0,
    currentValueUsd := 0, change24hPercent := 0, ethValue := some 1 }

/-- Counterexample to claim C7 as stated: enrichment rewrites the value
field to nativeValue times the ETH price (here 100), but the price field
to that amount divided by `Math.max(amount, 1)` (here 50), so for a
holding with amount 2 the price field is not nativeValue times the USD
price. -/
theorem enrichBlur_price_field_cex :
    (enrichBlurHoldingsWithEthPrice [blurCexHolding] 100).map
      (fun h => h.currentPriceUsd) = [50] ∧
    (enrichBlurHoldingsWithEthPrice [blurCexHolding] 100).map
      (fun h => h.currentValueUsd) = [100] ∧
    ((50 : ℚ) ≠ 1 * 100) := by
  refine ⟨?_, ?_, by norm_num⟩
  · simp only [enrichBlurHoldingsWithEthPrice, List.map_cons, List.map_nil,
      blurCexHolding]
    norm_num [max_def]
  · simp only [enrichBlurHoldingsWithEthPrice, List.map_cons, List.map_nil,
      blurCexHolding]
    norm_num

/-- Claim C7, amended: phase 1 produces every Blur holding with
`currentPriceUsd` and `currentValueUsd` exactly 0 and with the internal
native-coin annotation present, so value can exceed 0 only after
enrichment; phase 2 rewrites every holding so that `currentValueUsd`
becomes nativeValue times the ETH USD price, while `currentPriceUsd`
becomes that amount divided by `max(amount, 1)` (a per-unit price, not
the product itself). -/
theorem blur_two_phase_enrichment (tokens : List NftToken) (ethPriceUsd : ℚ) :
    (∀ h ∈ fetchNftHoldings tokens,
      h.currentPriceUsd = 0 ∧ h.currentValueUsd = 0 ∧ h.ethValue.isSome = true) ∧
    enrichBlurHoldingsWithEthPrice (fetchNftHoldings tokens) ethPriceUsd =
      (groupCollections tokens).map (fun q =>
        { asset := "NFT: " ++ q.2.name, platform := .blur, amount := q.2.count,
          currentPriceUsd := q.2.totalValueEth * ethPriceUsd / max q.2.count 1,
          currentValueUsd := q.2.totalValueEth * ethPriceUsd,
          change24hPercent := 0, ethValue := some q.2.totalValueEth }) := by
  constructor
  · intro h hh
    simp only [fetchNftHoldings, List.mem_map] at hh
    obtain ⟨q, hq, rfl⟩ := hh
    exact ⟨rfl, rfl, rfl⟩
  · simp only [fetchNftHoldings, enrichBlurHoldingsWithEthPrice, List.map_map]
    rfl

/-- The phase-1 holding produced from one token entry of quantity 3 at
floor price 2 in collection Punks. -/
def punkHolding : PortfolioHolding :=
  { asset := "NFT: Punks", platform := .blur, amount := 3, currentPriceUsd := 0,
    currentValueUsd := 0, change24hPercent := 0, ethValue := some 6 }

/-- Witness for `blur_two_phase_enrichment`: one token entry with
quantity 3 and floor price 2 gives the zeroed phase-1 holding, and
enrichment at an ETH price of 100 gives a value of 600. -/
theorem blur_two_phase_enrichment_witness :
    punkHolding.currentValueUsd = 0 ∧
    (enrichBlurHoldingsWithEthPrice
      (fetchNftHoldings [⟨"c", "Punks", 2, 3⟩]) 100).map
      (fun h => h.currentValueUsd) = [600] := by
  have h := blur_two_phase_enrichment [⟨"c", "Punks", 2, 3⟩] 100
  have hlist : fetchNftHoldings [⟨"c", "Punks", 2, 3⟩] = [punkHolding] := by
    simp only [fetchNftHoldings, groupCollections, addToken, List.foldl_cons,
      List.foldl_nil, List.lookup_nil, List.map_cons, List.map_nil,
      List.nil_append, punkHolding]
    norm_num
    rfl
  refine ⟨(h.1 punkHolding (by rw [hlist]; exact List.mem_singleton_self _)).2.1, ?_⟩
  rw [h.2]
  simp only [groupCollections, addToken, List.foldl_cons, List.foldl_nil,
    List.lookup_nil, List.map_cons, List.map_nil, List.nil_append]
  norm_num

/-- The concrete account refuting the staked-balance clause of claim C8:
its entire balance of 5 is staked. -/
def stakedAccount : CdcAccount := ⟨"BTC", 0, 0, 5⟩

/-- Counterexample to claim C8 as stated: a currency whose whole balance
is staked has a positive total balance (5) but yields no holding,
because the filter tests `available + order > 0` and ignores the staked
part. -/
theorem fetchAccountSummary_staked_only_cex :
    fetchAccountSummaryHoldings [stakedAccount] (fun _ => none) = [] ∧
    stakedAccount.available + stakedAccount.order + stakedAccount.stake = 5 ∧
    (0 : ℚ) < 5 := by
  refine ⟨?_, by norm_num [stakedAccount], by norm_num⟩
  have hfilter : [stakedAccount].filter (fun a => 0 < a.available + a.order) = [] := by
    simp only [List.filter, stakedAccount]
    norm_num
  simp only [fetchAccountSummaryHoldings, hfilter, List.map_nil]

/-- Claim C8, amended: the holdings list has one holding per account
that passes the `available + order > 0` filter (the staked part is
ignored by the filter), carrying the currency and the amount
`available + order + stake`; in particular, when every account has
`available + order <= 0` — for example a currency whose entire balance
is staked — no holding at all is produced. -/
theorem fetchAccountSummary_holdings_spec (accounts : List CdcAccount)
    (prices : String → Option PriceEntry) :
    (fetchAccountSummaryHoldings accounts prices).map (fun h => (h.asset, h.amount)) =
      (accounts.filter (fun a => 0 < a.available + a.order)).map
        (fun a => (a.currency, a.available + a.order + a.stake)) ∧
    ((∀ a ∈ accounts, a.available + a.order ≤ 0) →
      fetchAccountSummaryHoldings accounts prices = []) := by
  constructor
  · simp only [fetchAccountSummaryHoldings, List.map_map]
    rfl
  · intro hall
    have hfilter : accounts.filter (fun a => 0 < a.available + a.order) = [] := by
      rw [List.filter_eq_nil_iff]
      intro a ha
      simpa using not_lt.mpr (hall a ha)
    simp only [fetchAccountSummaryHoldings, hfilter, List.map_nil]

/-- Witness for `fetchAccountSummary_holdings_spec`: one account with
available 1 and stake 5 yields the pair (ETH, 6), and the all-staked
account list yields no holdings. -/
theorem fetchAccountSummary_holdings_spec_witness :
    (fetchAccountSummaryHoldings [⟨"ETH", 1, 0, 5⟩] (fun _ => none)).map
      (fun h => (h.asset, h.amount)) = [("ETH", (6 : ℚ))] ∧
    fetchAccountSummaryHoldings [⟨"BTC", 0, 0, 5⟩] (fun _ => none) = [] := by
  constructor
  · refine (fetchAccountSummary_holdings_spec [⟨"ETH", 1, 0, 5⟩] (fun _ => none)).1.trans ?_
    have hfilter : [(⟨"ETH", 1, 0, 5⟩ : CdcAccount)].filter
        (fun a => 0 < a.available + a.order) = [⟨"ETH", 1, 0, 5⟩] := by
      simp only [List.filter]
      norm_num
    rw [hfilter]
    simp only [List.map_cons, List.map_nil]
    norm_num
  · refine (fetchAccountSummary_holdings_spec [⟨"BTC", 0, 0, 5⟩] (fun _ => none)).2 ?_
    intro a ha
    simp only [List.mem_singleton] at ha
    subst ha
    norm_num

/-- Holdings contributed by one settled outcome (empty on failure). -/
def okHoldings : Except String (List PortfolioHolding × List TradeRecord) →
    List PortfolioHolding
  | .ok r => r.1
  | .error _ => []

/-- Trades contributed by one settled outcome (empty on failure). -/
def okTrades : Except String (List PortfolioHolding × List TradeRecord) →
    List TradeRecord
  | .ok r => r.2
  | .error _ => []

/-- Error entry contributed by one settled outcome (none on success). -/
def errEntry (p : Platform) :
    Except String (List PortfolioHolding × List TradeRecord) → Option PlatformError
  | .ok _ => none
  | .error e => some ⟨p, e⟩

/-- Whether an outcome is a rejection. -/
def isErr {α : Type} : Except String α → Bool
  | .error _ => true
  | .ok _ => false

/-- The fan-in fold appends, platform by platform, the successful
holdings and trades and the error entries of the failed platforms. -/
theorem mergeFold_spec
    (outcome : Platform → Except String (List PortfolioHolding × List TradeRecord))
    (ps : List Platform) :
    ∀ (h0 : List PortfolioHolding) (t0 : List TradeRecord) (e0 : List PlatformError),
      ps.foldl (mergeStep outcome) (h0, t0, e0) =
        (h0 ++ ps.flatMap (fun p => okHoldings (outcome p)),
         t0 ++ ps.flatMap (fun p => okTrades (outcome p)),
         e0 ++ ps.filterMap (fun p => errEntry p (outcome p))) := by
  induction ps with
  | nil => intro h0 t0 e0; simp
  | cons p t ih =>
    intro h0 t0 e0
    rw [List.foldl_cons]
    cases ho : outcome p with
    | ok r =>
      rw [show mergeStep outcome (h0, t0, e0) p = (h0 ++ r.1, t0 ++ r.2, e0) by
        simp [mergeStep, ho]]
      rw [ih]
      simp [List.flatMap_cons, List.filterMap_cons, okHoldings, okTrades,
        errEntry, ho, List.append_assoc]
    | error e =>
      rw [show mergeStep outcome (h0, t0, e0) p = (h0, t0, e0 ++ [⟨p, e⟩]) by
        simp [mergeStep, ho]]
      rw [ih]
      simp [List.flatMap_cons, List.filterMap_cons, okHoldings, okTrades,
        errEntry, ho, List.append_assoc]

/-- Componentwise description of the aggregator result. -/
theorem fetchAll_components (parse : String → ℤ)
    (outcome : Platform → Except String (List PortfolioHolding × List TradeRecord)) :
    (fetchAllPlatformData parse outcome).holdings =
      aggregatorPlatforms.flatMap (fun p => okHoldings (outcome p)) ∧
    (fetchAllPlatformData parse outcome).trades =
      sortTradesByDateDesc parse
        (aggregatorPlatforms.flatMap (fun p => okTrades (outcome p))) ∧
    (fetchAllPlatformData parse outcome).errors =
      aggregatorPlatforms.filterMap (fun p => errEntry p (outcome p)) := by
  have h := mergeFold_spec outcome aggregatorPlatforms [] [] []
  refine ⟨?_, ?_, ?_⟩ <;>
    simp only [fetchAllPlatformData, h, List.nil_append]

/-- The platforms of the produced error entries are exactly the
platforms whose outcome failed, in platform order. -/
theorem errEntry_platforms
    (outcome : Platform → Except String (List PortfolioHolding × List TradeRecord))
    (ps : List Platform) :
    (ps.filterMap (fun p => errEntry p (outcome p))).map (fun e => e.platform) =
      ps.filter (fun p => isErr (outcome p)) := by
  induction ps with
  | nil => rfl
  | cons p t ih =>
    cases ho : outcome p with
    | ok r =>
      have h1 : errEntry p (outcome p) = none := by rw [ho]; rfl
      have h2 : isErr (outcome p) = false := by rw [ho]; rfl
      simp [List.filterMap_cons, List.filter_cons, h1, h2, ih]
    | error e =>
      have h1 : errEntry p (outcome p) = some ⟨p, e⟩ := by rw [ho]; rfl
      have h2 : isErr (outcome p) = true := by rw [ho]; rfl
      simp [List.filterMap_cons, List.filter_cons, h1, h2, ih]

/-- A flat map over contributions that are all empty is empty. -/
theorem flatMap_nil_of {α β : Type} (f : α → List β) (l : List α)
    (h : ∀ x ∈ l, f x = []) : l.flatMap f = [] := by
  induction l with
  | nil => rfl
  | cons x t ih =>
    rw [List.flatMap_cons, h x (List.mem_cons_self x t),
      ih (fun y hy => h y (List.mem_cons_of_mem _ hy)), List.nil_append]

/-- Claim C1: for every combination of per-platform settled outcomes the
aggregator resolves to a merged result whose holdings are exactly the
concatenation over the platform list of the successful holdings, whose
trades are a permutation of the concatenated successful trades (the sort
reorders them), and whose error list has exactly the one entry per
failed platform, in platform order — so at most one entry per platform,
one failure never removes another platform's data, and failure of every
platform yields empty holdings and trades with every platform listed in
the errors. -/
theorem fetchAllPlatformData_isolates_failures (parse : String → ℤ)
    (outcome : Platform → Except String (List PortfolioHolding × List TradeRecord)) :
    (fetchAllPlatformData parse outcome).holdings =
      aggregatorPlatforms.flatMap (fun p => okHoldings (outcome p)) ∧
    ((fetchAllPlatformData parse outcome).trades).Perm
      (aggregatorPlatforms.flatMap (fun p => okTrades (outcome p))) ∧
    (fetchAllPlatformData parse outcome).errors =
      aggregatorPlatforms.filterMap (fun p => errEntry p (outcome p)) ∧
    ((fetchAllPlatformData parse outcome).errors.map (fun e => e.platform)).Nodup ∧
    ((∀ p ∈ aggregatorPlatforms, isErr (outcome p) = true) →
      (fetchAllPlatformData parse outcome).holdings = [] ∧
      (fetchAllPlatformData parse outcome).trades = [] ∧
      (fetchAllPlatformData parse outcome).errors.map (fun e => e.platform) =
        aggregatorPlatforms) := by
  obtain ⟨hh, ht, he⟩ := fetchAll_components parse outcome
  have hplat : ((fetchAllPlatformData parse outcome).errors.map
      (fun e => e.platform)) = aggregatorPlatforms.filter (fun p => isErr (outcome p)) := by
    rw [he, errEntry_platforms]
  refine ⟨hh, ?_, he, ?_, ?_⟩
  · rw [ht]
    exact List.mergeSort_perm _ _
  · rw [hplat]
    exact (List.filter_sublist _).nodup (by decide)
  · intro hall
    have hok : ∀ p ∈ aggregatorPlatforms, okTrades (outcome p) = [] := by
      intro p hp
      have := hall p hp
      cases ho : outcome p with
      | ok r => rw [ho] at this; simp [isErr] at this
      | error e => rfl
    have hokh : ∀ p ∈ aggregatorPlatforms, okHoldings (outcome p) = [] := by
      intro p hp
      have := hall p hp
      cases ho : outcome p with
      | ok r => rw [ho] at this; simp [isErr] at this
      | error e => rfl
    refine ⟨?_, ?_, ?_⟩
    · rw [hh, flatMap_nil_of _ _ hokh]
    · rw [ht, flatMap_nil_of _ _ hok]
      simp [sortTradesByDateDesc]
    · rw [hplat]
      exact List.filter_eq_self.mpr hall

/-- Witness for `fetchAllPlatformData_isolates_failures`: when every
platform rejects, the result is empty-but-successful and every platform
appears in the error list. -/
theorem fetchAllPlatformData_isolates_failures_witness :
    (fetchAllPlatformData (fun _ => 0) (fun _ => .error "down")).holdings = [] ∧
    (fetchAllPlatformData (fun _ => 0) (fun _ => .error "down")).trades = [] ∧
    (fetchAllPlatformData (fun _ => 0) (fun _ => .error "down")).errors.map
      (fun e => e.platform) = aggregatorPlatforms :=
  (fetchAllPlatformData_isolates_failures (fun _ => 0)
    (fun _ => .error "down")).2.2.2.2 (fun _ _ => rfl)

/-- The required-credential check of `fetchPlatformData`, per platform:
both API fields for the signed exchange, the wallet address for every
other source (`other` has no adapter at all). -/
def requiredCredentialMissing (p : Platform) (creds : CredStore) : Bool :=
  match p with
  | .cryptoCom => falsy (creds.get .cryptoCom "apiKey") ||
      falsy (creds.get .cryptoCom "apiSecret")
  | .hyperliquid => falsy (creds.get .hyperliquid "walletAddress")
  | .blur => falsy (creds.get .blur "walletAddress")
  | .ethereum => falsy (creds.get .ethereum "walletAddress")
  | .bitcoin => falsy (creds.get .bitcoin "walletAddress")
  | .solana => falsy (creds.get .solana "walletAddress")
  | .other => true

/-- A falsy (null or empty) address credential parses to no addresses. -/
theorem parseAddresses_falsy (raw : Option String) (h : falsy raw = true) :
    parseAddresses raw = [] := by
  cases raw with
  | none => rfl
  | some s =>
    simp only [falsy, decide_eq_true_eq] at h
    subst h
    rfl

/-- An error entry names the platform it was filed under, and only a
rejected outcome files one. -/
theorem errEntry_some {p : Platform}
    {o : Except String (List PortfolioHolding × List TradeRecord)}
    {e : PlatformError} (h : errEntry p o = some e) :
    e.platform = p ∧ isErr o = true := by
  cases o with
  | ok r => simp [errEntry] at h
  | error s =>
    simp only [errEntry, Option.some.injEq] at h
    subst h
    exact ⟨rfl, rfl⟩

/-- Claim C2: a platform whose required credential is missing (null or
empty) contributes the empty success — no holdings, no trades — and no
entry for it ever appears in the aggregation error list. -/
theorem unconfigured_platform_skipped (p : Platform) (creds : CredStore)
    (env : AdapterEnv) (parse : String → ℤ)
    (hmiss : requiredCredentialMissing p creds = true) :
    fetchPlatformData p creds env = .ok ([], []) ∧
    ∀ e ∈ (fetchAllFromEnv parse creds env).errors, e.platform ≠ p := by
  have hskip : fetchPlatformData p creds env = .ok ([], []) := by
    cases p with
    | cryptoCom =>
      simp only [requiredCredentialMissing] at hmiss
      simp [fetchPlatformData, hmiss]
    | hyperliquid =>
      simp only [requiredCredentialMissing] at hmiss
      simp [fetchPlatformData, hmiss]
    | blur =>
      simp only [requiredCredentialMissing] at hmiss
      simp [fetchPlatformData, hmiss]
    | ethereum =>
      simp only [requiredCredentialMissing] at hmiss
      simp [fetchPlatformData, parseAddresses_falsy _ hmiss]
    | bitcoin =>
      simp only [requiredCredentialMissing] at hmiss
      simp [fetchPlatformData, parseAddresses_falsy _ hmiss]
    | solana =>
      simp only [requiredCredentialMissing] at hmiss
      simp [fetchPlatformData, parseAddresses_falsy _ hmiss]
    | other => rfl
  refine ⟨hskip, ?_⟩
  intro e he
  have herr := (fetchAll_components parse
    (fun q => fetchPlatformData q creds env)).2.2
  rw [show fetchAllFromEnv parse creds env =
    fetchAllPlatformData parse (fun q => fetchPlatformData q creds env) from rfl,
    herr] at he
  obtain ⟨q, _, hq⟩ := List.mem_filterMap.mp he
  obtain ⟨hqp, hqe⟩ := errEntry_some hq
  intro hep
  have hqp2 : q = p := by rw [← hqp, hep]
  rw [hqp2, hskip] at hqe
  simp [isErr] at hqe

/-- The credential store with nothing configured. -/
def emptyCreds : CredStore := ⟨fun _ _ => none⟩

/-- An adapter environment in which every remote call succeeds with
empty data. -/
def emptyEnv : AdapterEnv :=
  { cryptoComHoldings := .ok [], cryptoComTrades := .ok [],
    hlClearinghousePositions := .ok [], hlSpotBalances := .ok [],
    hlFills := .ok [], blurRawHoldings := .ok [], blurTrades := .ok [],
    ethPriceEntry := .ok none, ethHoldings := fun _ => .ok [],
    ethTrades := fun _ => .ok [], btcBalance := fun _ => .ok 0,
    btcPriceEntry := .ok none, solHoldings := fun _ => .ok [],
    solTrades := fun _ => .ok [] }

/-- Witness for `unconfigured_platform_skipped`: with no credentials at
all, the signed-exchange platform resolves to the empty success. -/
theorem unconfigured_platform_skipped_witness :
    fetchPlatformData .cryptoCom emptyCreds emptyEnv = .ok ([], []) :=
  (unconfigured_platform_skipped .cryptoCom emptyCreds emptyEnv (fun _ => 0) rfl).1

/-- Claim C9: for every input combination, the merged trade list is a
permutation of the concatenated per-platform trades, is sorted by parsed
date descending, and the sort is stable: any two trades appearing in
merge order with equal parsed dates keep their relative order in the
result. -/
theorem fetchAll_trades_sorted_desc_stable (parse : String → ℤ)
    (outcome : Platform → Except String (List PortfolioHolding × List TradeRecord)) :
    ((fetchAllPlatformData parse outcome).trades).Perm
      (aggregatorPlatforms.flatMap (fun p => okTrades (outcome p))) ∧
    ((fetchAllPlatformData parse outcome).trades).Pairwise
      (fun a b => parse b.date ≤ parse a.date) ∧
    ∀ a b : TradeRecord, parse a.date = parse b.date →
      List.Sublist [a, b] (aggregatorPlatforms.flatMap (fun p => okTrades (outcome p))) →
      List.Sublist [a, b] ((fetchAllPlatformData parse outcome).trades) := by
  obtain ⟨hh, ht, he⟩ := fetchAll_components parse outcome
  have htrans : ∀ a b c : TradeRecord,
      decide (parse b.date ≤ parse a.date) = true →
      decide (parse c.date ≤ parse b.date) = true →
      decide (parse c.date ≤ parse a.date) = true := by
    intro a b c hab hbc
    simp only [decide_eq_true_eq] at hab hbc ⊢
    exact le_trans hbc hab
  have htotal : ∀ a b : TradeRecord,
      (decide (parse b.date ≤ parse a.date) ||
        decide (parse a.date ≤ parse b.date)) = true := by
    intro a b
    simp only [Bool.or_eq_true, decide_eq_true_eq]
    exact le_total (parse b.date) (parse a.date)
  refine ⟨?_, ?_, ?_⟩
  · rw [ht]
    exact List.mergeSort_perm _ _
  · rw [ht]
    simp only [sortTradesByDateDesc]
    have hs := List.sorted_mergeSort htrans htotal
      (aggregatorPlatforms.flatMap (fun p => okTrades (outcome p)))
    exact hs.imp (fun h => by simpa using h)
  · intro a b hab hsub
    rw [ht]
    simp only [sortTradesByDateDesc]
    refine List.pair_sublist_mergeSort htrans htotal ?_ hsub
    simp [hab]

/-- A trade with date tag d and id a, used to exercise stability. -/
def tradeA : TradeRecord :=
  { id := "a", date := "d", platform := .ethereum, ttype := .buy,
    asset := "ETH", amount := 0, priceUsd := 0, totalValueUsd := 0,
    feesUsd := 0, source := .api }

/-- A trade with the same date tag d and id b. -/
def tradeB : TradeRecord :=
  { id := "b", date := "d", platform := .ethereum, ttype := .sell,
    asset := "ETH", amount := 0, priceUsd := 0, totalValueUsd := 0,
    feesUsd := 0, source := .api }

/-- An outcome assignment in which the chain-explorer platform returns
the two equal-dated trades in order and everything else is empty. -/
def pairOutcome : Platform → Except String (List PortfolioHolding × List TradeRecord) :=
  fun p => match p with
  | .ethereum => .ok ([], [tradeA, tradeB])
  | _ => .ok ([], [])

/-- Witness for `fetchAll_trades_sorted_desc_stable`: the two trades
with equal dates keep their merge order in the sorted result. -/
theorem fetchAll_trades_sorted_desc_stable_witness :
    List.Sublist [tradeA, tradeB]
      ((fetchAllPlatformData (fun _ => 0) pairOutcome).trades) := by
  refine (fetchAll_trades_sorted_desc_stable (fun _ => 0) pairOutcome).2.2
    tradeA tradeB rfl ?_
  rw [show aggregatorPlatforms.flatMap (fun p => okTrades (pairOutcome p)) =
    [tradeA, tradeB] from rfl]

/-- Claim C10: within the Hyperliquid platform the two holdings sources
degrade asymmetrically — a failed spot-balances fetch is swallowed and
the perpetual positions alone are returned, while a failed clearinghouse
fetch rejects the whole holdings call, and with the platform configured
that rejection lands as the Hyperliquid entry of the aggregation error
list. -/
theorem hyperliquid_asymmetric_degradation (env : AdapterEnv) (creds : CredStore)
    (parse : String → ℤ) :
    (∀ (ps : List PortfolioHolding) (e : String),
      env.hlClearinghousePositions = .ok ps → env.hlSpotBalances = .error e →
      fetchHyperliquidHoldings env = .ok ps) ∧
    (∀ e : String, env.hlClearinghousePositions = .error e →
      fetchHyperliquidHoldings env = .error e) ∧
    (∀ e : String, env.hlClearinghousePositions = .error e →
      falsy (creds.get .hyperliquid "walletAddress") = false →
      (⟨.hyperliquid, e⟩ : PlatformError) ∈ (fetchAllFromEnv parse creds env).errors) := by
  refine ⟨?_, ?_, ?_⟩
  · intro ps e h1 h2
    simp [fetchHyperliquidHoldings, h1, h2]
  · intro e h1
    simp [fetchHyperliquidHoldings, h1]
  · intro e h1 h2
    have houtcome : fetchPlatformData .hyperliquid creds env = .error e := by
      have hhl : fetchHyperliquidHoldings env = .error e := by
        simp [fetchHyperliquidHoldings, h1]
      simp only [fetchPlatformData, h2, Bool.false_eq_true, if_false, hhl]
      rfl
    have herr := (fetchAll_components parse
      (fun q => fetchPlatformData q creds env)).2.2
    rw [show fetchAllFromEnv parse creds env =
      fetchAllPlatformData parse (fun q => fetchPlatformData q creds env) from rfl,
      herr]
    refine List.mem_filterMap.mpr ⟨.hyperliquid, ?_, ?_⟩
    · simp [aggregatorPlatforms]
    · rw [houtcome]
      rfl

/-- The environment in which the Hyperliquid clearinghouse call fails. -/
def hlErrEnv : AdapterEnv :=
  { emptyEnv with hlClearinghousePositions := .error "clearinghouse down" }

/-- A credential store configuring only the Hyperliquid wallet. -/
def hlCreds : CredStore :=
  ⟨fun p k =>
    if p = .hyperliquid then (if k = "walletAddress" then some "0xabc" else none)
    else none⟩

/-- Witness for `hyperliquid_asymmetric_degradation`: a failed
clearinghouse call on the configured platform files the Hyperliquid
error entry. -/
theorem hyperliquid_asymmetric_degradation_witness :
    (⟨.hyperliquid, "clearinghouse down"⟩ : PlatformError) ∈
      (fetchAllFromEnv (fun _ => 0) hlCreds hlErrEnv).errors :=
  (hyperliquid_asymmetric_degradation hlErrEnv hlCreds (fun _ => 0)).2.2
    "clearinghouse down" rfl rfl

/-- Every byte emitted by the SHA-256 serialization is below 256. -/
theorem sha256_bytes_lt (msg : List Nat) : ∀ b ∈ sha256 msg, b < 256 := by
  intro b hb
  simp only [sha256, List.mem_flatMap] at hb
  obtain ⟨w, _, hw⟩ := hb
  simp only [List.mem_cons, List.not_mem_nil, or_false] at hw
  rcases hw with h | h | h | h <;> subst h <;>
    exact Nat.mod_lt _ (by norm_num)

/-- Every byte of an HMAC-SHA256 tag is below 256. -/
theorem hmacSha256_bytes_lt (key msg : List Nat) :
    ∀ b ∈ hmacSha256 key msg, b < 256 := by
  intro b hb
  simp only [hmacSha256] at hb
  exact sha256_bytes_lt _ b hb

/-- The hex digit of a value below 16 is a lowercase hex character. -/
theorem hexDigit_mem : ∀ n < 16, hexDigit n ∈ lowercaseHexChars := by decide

/-- Character data of a joined string list is the flattened character
data. -/
theorem data_foldl_append (l : List String) :
    ∀ a : String, (l.foldl (fun r s => r ++ s) a).data =
      a.data ++ (l.map String.data).flatten := by
  induction l with
  | nil => intro a; simp
  | cons s t ih =>
    intro a
    rw [List.foldl_cons, ih (a ++ s)]
    simp [String.data_append]

/-- Every character of the hex encoding of a byte list is a lowercase
hex character. -/
theorem hexEncode_chars (bytes : List Nat) (hb : ∀ b ∈ bytes, b < 256) :
    ∀ c ∈ (hexEncode bytes).toList, c ∈ lowercaseHexChars := by
  intro c hc
  have hdata : (hexEncode bytes).data =
      ((bytes.map byteToHex).map String.data).flatten := by
    simpa [hexEncode, String.join] using
      data_foldl_append (bytes.map byteToHex) ""
  rw [String.toList, hdata] at hc
  simp only [List.mem_flatten, List.mem_map] at hc
  obtain ⟨l, ⟨s, ⟨b, hbmem, hbs⟩, hsl⟩, hcl⟩ := hc
  subst hbs
  subst hsl
  simp only [byteToHex, List.mem_cons, List.not_mem_nil, or_false] at hcl
  have hblt := hb b hbmem
  rcases hcl with h | h <;> subst h
  · exact hexDigit_mem _ (Nat.div_lt_of_lt_mul (by omega))
  · exact hexDigit_mem _ (Nat.mod_lt _ (by norm_num))

/-- In an association list with no duplicate keys, lookup of the key of
a member returns the value of that member. -/
theorem lookup_eq_of_mem_nodup {l : List (String × String)}
    (hnd : (l.map Prod.fst).Nodup) {p : String × String} (hp : p ∈ l) :
    l.lookup p.1 = some p.2 := by
  induction l with
  | nil => cases hp
  | cons q t ih =>
    rcases List.mem_cons.mp hp with h | h
    · subst h
      simp [List.lookup]
    · have hq : q.1 ≠ p.1 := by
        intro hqp
        have hmem : p.1 ∈ t.map Prod.fst := List.mem_map_of_mem Prod.fst h
        rw [List.map_cons] at hnd
        exact (List.nodup_cons.mp hnd).1 (hqp ▸ hmem)
      have hbeq : (p.1 == q.1) = false := by
        rw [beq_eq_false_iff_ne]
        exact fun hpq => hq hpq.symm
      rw [List.map_cons] at hnd
      simp only [List.lookup, hbeq]
      exact ih (List.nodup_cons.mp hnd).2 h

/-- The key-sorted parameter concatenation of `signedRequest` equals the
concatenation of the key-sorted pairs as the specification words it,
provided the parameter keys are distinct (as for a JavaScript object). -/
theorem paramString_eq (params : List (String × String))
    (hnd : (params.map Prod.fst).Nodup) :
    paramString params = sortedParamsConcatenation params := by
  have hmap := @List.map_mergeSort (String × String) String
    (fun a b => strLeb a.1 b.1) strLeb Prod.fst params (fun a _ b _ => rfl)
  unfold paramString sortedParamsConcatenation
  rw [← hmap, List.map_map]
  refine congrArg String.join (List.map_congr_left ?_)
  intro p hp
  have hpmem : p ∈ params := List.mem_mergeSort.mp hp
  simp only [Function.comp]
  rw [lookup_eq_of_mem_nodup hnd hpmem]
  rfl

/-- Claim C6: for a fixed tuple of method, id, api key, parameters,
nonce and secret (with distinct parameter keys), the signature attached
by `signedRequest` equals the lowercase hex encoding of the HMAC-SHA256
tag, keyed by the UTF-8 secret, of the UTF-8 concatenation of method,
id, api key, the key-sorted parameter concatenation, and the nonce, with
no separators; determinism holds because the signature is a pure
function of the tuple, and every character of the signature is a
lowercase hex digit. -/
theorem signedRequest_signature_spec (method id apiKey : String)
    (params : List (String × String)) (nonce secret : String)
    (hnd : (params.map Prod.fst).Nodup) :
    signedRequestSig method id apiKey params nonce secret =
      hexEncode (hmacSha256 (utf8Bytes secret)
        (utf8Bytes (method ++ id ++ apiKey ++
          sortedParamsConcatenation params ++ nonce))) ∧
    ∀ c ∈ (signedRequestSig method id apiKey params nonce secret).toList,
      c ∈ lowercaseHexChars := by
  have hps := paramString_eq params hnd
  constructor
  · simp only [signedRequestSig, hmacSign, sigPayload, hps]
  · intro c hc
    simp only [signedRequestSig, hmacSign, sigPayload] at hc
    exact hexEncode_chars _ (hmacSha256_bytes_lt _ _) c hc

set_option maxRecDepth 1000000 in
/-- Witness for `signedRequest_signature_spec` at a concrete tuple,
pinned to the independently computed reference value (golden test). -/
theorem signedRequest_signature_spec_witness :
    signedRequestSig "private/get-account-summary" "1700000000000" "key123"
      [("page_size", "50")] "1700000000000" "secret456" =
      "26090ba49461a135e6d1069d50c772b063b9cdad957811b971a61edec3e29266" := by
  have hp : sortedParamsConcatenation [("page_size", "50")] = "page_size50" := by
    simp only [sortedParamsConcatenation, List.mergeSort_singleton, List.map_cons,
      List.map_nil]
    rfl
  refine (signedRequest_signature_spec "private/get-account-summary"
    "1700000000000" "key123" [("page_size", "50")] "1700000000000" "secret456"
    (by decide)).1.trans ?_
  rw [hp]
  decide

end BitcoinBot
